import Mathlib

/-!
Verification development for the dialogue-story playback engine
(src/components/DialogueProvider.tsx, the full-featured revision with
background cross-fade, pinned slots, narrator handling, activeRedo and
skip support; the earlier revision's joined-list character resolution is
also embedded for comparison).

The React component is embedded as an explicit state machine:
every useState hook becomes a field of `EngineState`, every event
handler becomes a pure state-transition function, and timers become
boolean "armed" flags plus explicit elapse/tick events.  JS `undefined`
vs `null` distinctions that the code observes are kept
(`Option (Option String)` for the per-message background field).
-/

/-- Screen side of a speaker. -/
inductive Side where
  | left
  | right
deriving DecidableEq, Repr

/-- Side including the "unknown" outcome used by the earlier joined-list
resolver (src/src/components/DialogueProvider.tsx). -/
inductive SideU where
  | left
  | right
  | unknown
deriving DecidableEq, Repr

/-- BackgroundFilter from src/types/dialogue.ts: optional fade and blur
numbers.  Numeric values are modelled as integers; the engine only ever
compares filters for equality. -/
structure BackgroundFilter where
  fade : Option Int := none
  blur : Option Int := none
deriving DecidableEq, Repr

/-- DEFAULT_BG_FILTER = Object.freeze({ fade: 0, blur: 0 }). -/
def DEFAULT_BG_FILTER : BackgroundFilter := { fade := some 0, blur := some 0 }

/-- CharacterEntry from src/types/dialogue.ts. -/
structure CharacterEntry where
  name : String
  mode : Option String := none
  src : String
deriving DecidableEq, Repr

/-- DialogueMessage from src/types/dialogue.ts, with the extra fields the
provider reads (forcedSide, fontSize, fontWeight).  The `bgImage` field
distinguishes undefined (field absent: no change) from null (explicitly
clear): `none` is undefined, `some none` is null, `some (some url)` is a
URL. -/
structure DialogueMessage where
  text : String
  charecter : String
  mode : Option String := none
  typeSpeed : Option Nat := none
  textColor : Option String := none
  bgColor : Option String := none
  fontSize : Option String := none
  fontWeight : Option String := none
  showTimes : Bool := false
  forcedSide : Option Side := none
  bgImage : Option (Option String) := none
  filter : Option BackgroundFilter := none
deriving DecidableEq, Repr

/-- InternalMessage: DialogueMessage plus resolved defaults. -/
structure InternalMessage extends DialogueMessage where
  resolvedTypeSpeed : Nat
  resolvedTextColor : String
  resolvedBgColor : String
  resolvedFontSize : Option String := none
  resolvedFontWeight : Option String := none
deriving DecidableEq, Repr

/-- PinnedMap: at most one persisted message per slot (left, right, top). -/
structure PinnedMap where
  left : Option InternalMessage := none
  right : Option InternalMessage := none
  top : Option InternalMessage := none
deriving DecidableEq, Repr

/-- Result of parseCharacterKey. -/
structure ParsedKey where
  name : String
  forcedSide : Option Side := none
deriving DecidableEq, Repr

/-- JS String.split on a single-character separator, over explicit
character lists so that everything evaluates inside the kernel. -/
def splitOnChar (sep : Char) : List Char → List (List Char)
  | [] => [[]]
  | c :: rest =>
    if c = sep then [] :: splitOnChar sep rest
    else
      match splitOnChar sep rest with
      | h :: t => (c :: h) :: t
      | [] => [[c]]

/-- raw.split of the colon separator. -/
def jsSplitColon (raw : String) : List String :=
  (splitOnChar ':' raw.data).map String.mk

/-- JS String.trim (whitespace at both ends). -/
def jsTrim (s : String) : String :=
  String.mk (((s.data.dropWhile Char.isWhitespace).reverse.dropWhile Char.isWhitespace).reverse)

/-- JS String.toLowerCase. -/
def lowerString (s : String) : String := String.mk (s.data.map Char.toLower)

/-- parseCharacterKey (DialogueProvider.tsx lines 40-50): decompose a
"name:side" speaker key.  An empty raw string is returned unchanged; with
a colon present, a suffix whose lowercase form is "right" forces right and
ANY other suffix forces left; with no colon the side is left undetermined. -/
def parseCharacterKey (raw : String) : ParsedKey :=
  if raw = "" then { name := raw, forcedSide := none }
  else
    let parts := (jsSplitColon raw).map jsTrim
    let base := parts.headD raw
    if parts.length > 1 then
      let suffix := lowerString ((parts.get? 1).getD "")
      if suffix = "right" then { name := base, forcedSide := some Side.right }
      else { name := base, forcedSide := some Side.left }
    else { name := base, forcedSide := none }

/-- Truthiness test used for the narrator check
(parsed.name and parsed.name.toLowerCase() equal to "ravi"). -/
def isRaviName (n : String) : Bool :=
  n != "" && lowerString n == "ravi"

/-- JS truthiness of an optional string (null/undefined and "" are falsy). -/
def isTruthyOptStr : Option String → Bool
  | none => false
  | some s => s != ""

/-- JS falsiness of an optional mode string, as tested by the source's
"not c.mode" condition. -/
def isFalsyMode : Option String → Bool
  | none => true
  | some s => s == ""

/-- The searchIn closure of findCharacterEntryByName (lines 245-255):
within one entry list, try an exact name+mode match (only when the mode
argument is truthy), then a match on name with falsy mode or mode
"default", then the first match on name alone. -/
def searchIn (name : String) (mode : Option String) (arr : List CharacterEntry) :
    Option CharacterEntry :=
  let exact : Option CharacterEntry :=
    match mode with
    | some m => if m != "" then arr.find? (fun c => c.name == name && c.mode == some m) else none
    | none => none
  match exact with
  | some e => some e
  | none =>
    match arr.find? (fun c => c.name == name && (isFalsyMode c.mode || c.mode == some "default")) with
    | some e => some e
    | none => arr.find? (fun c => c.name == name)

/-- Result of findCharacterEntryByName: entry plus which list it was found on. -/
structure FindResult where
  entry : Option CharacterEntry
  foundOn : Option Side
deriving DecidableEq, Repr

/-- Provider configuration relevant to the state machine (construction
props after destructuring defaults; rtl / mode / skipMessage are
presentation-only and omitted).  leftChars and rightChars are the
effective lists "runtime ?? props" of lines 178-179. -/
structure Config where
  speed : Nat := 35
  providerBgImage : Option String := none
  providerBgFilter : BackgroundFilter := DEFAULT_BG_FILTER
  activeRedo : Bool := false
  canSkip : Bool := false
  hasOnFinished : Bool := true
  leftChars : List CharacterEntry := []
  rightChars : List CharacterEntry := []
deriving DecidableEq, Repr

/-- findCharacterEntryByName (lines 244-262): search the left list in
full priority order first, then the right list. -/
def findCharacterEntryByName (cfg : Config) (name : String) (mode : Option String) :
    FindResult :=
  match searchIn name mode cfg.leftChars with
  | some e => { entry := some e, foundOn := some Side.left }
  | none =>
    match searchIn name mode cfg.rightChars with
    | some e => { entry := some e, foundOn := some Side.right }
    | none => { entry := none, foundOn := none }

/-- findCharacterEntry of the earlier revision
(src/src/components/DialogueProvider.tsx lines 44-78): the two lists are
flattened into allCharacters and each priority tier searches the joined
list; the side is recovered by membership in the original lists. -/
def findCharacterEntry (leftCharacters rightCharacters : List CharacterEntry)
    (name : String) (mode : Option String) : Option CharacterEntry × SideU :=
  let allCharacters := leftCharacters ++ rightCharacters
  let sideOf : CharacterEntry → SideU := fun found =>
    if leftCharacters.contains found then SideU.left
    else if rightCharacters.contains found then SideU.right
    else SideU.unknown
  let exact : Option CharacterEntry :=
    match mode with
    | some m =>
      if m != "" then allCharacters.find? (fun c => c.name == name && c.mode == some m)
      else none
    | none => none
  match exact with
  | some found => (some found, sideOf found)
  | none =>
    let found :=
      match allCharacters.find?
          (fun c => c.name == name && (isFalsyMode c.mode || c.mode == some "default")) with
      | some e => some e
      | none => allCharacters.find? (fun c => c.name == name)
    match found with
    | some e => (some e, sideOf e)
    | none => (none, SideU.unknown)

/-- The starting-side formula of startTypingMessage line 285 (and the pin
side of pinIfNeeded line 330): message forcedSide, else key-suffix side,
else the list the directory entry was found on, else left. -/
def computedStartingSide (cfg : Config) (msg : InternalMessage) : Side :=
  let parsed := parseCharacterKey msg.charecter
  let found := findCharacterEntryByName cfg parsed.name msg.mode
  (msg.forcedSide.orElse (fun _ => parsed.forcedSide)).getD (found.foundOn.getD Side.left)

/-- PlayResult: what the dialogue() entry point hands back — an already
resolved promise, or a fresh pending promise identified by a serial id. -/
inductive PlayResult where
  | immediate
  | pending (id : Nat)
deriving DecidableEq, Repr

/-- The whole mutable state of the provider: one field per useState/useRef
hook, with the typing interval and background fade timeout modelled as
armed flags plus the closure-local typing position, and the
single-slot completion promise modelled by a serial id, together with
the multiset of promise ids resolved so far and a count of onFinished
invocations (observables for the temporal claims). -/
structure EngineState where
  activeMessages : Option (List InternalMessage) := none
  index : Nat := 0
  display : String := ""
  typing : Bool := false
  isActive : Bool := false
  currentMessage : Option InternalMessage := none
  prevMessage : Option InternalMessage := none
  pinned : PinnedMap := {}
  typingTimerActive : Bool := false
  typedPos : Nat := 0
  pendingResolve : Option Nat := none
  nextPromiseId : Nat := 0
  resolvedPromises : List Nat := []
  finishedCount : Nat := 0
  currentBg : Option String := none
  currentBgFilter : Option BackgroundFilter := none
  prevBg : Option String := none
  prevBgFilter : Option BackgroundFilter := none
  prevVisible : Bool := false
  bgFadeTimerActive : Bool := false
deriving DecidableEq, Repr

/-- Hook initial values (lines 80-101). -/
def initialEngineState (cfg : Config) : EngineState :=
  { currentBg := cfg.providerBgImage, currentBgFilter := some cfg.providerBgFilter }

/-- Canonical form of JSON.stringify(filter or empty object): undefined
fields are omitted, and a null filter stringifies like the empty object. -/
def canonFilter : Option BackgroundFilter → Option Int × Option Int
  | none => (none, none)
  | some f => (f.fade, f.blur)

/-- updateBackgroundForMessage (lines 212-242).  An undefined newBg is a
no-op; otherwise the target filter is the message filter, else the
provider filter; if both URL and filter are unchanged nothing happens;
otherwise a truthy current background is moved into the previous
(fading-out) layer and the fade timeout re-armed, and the new background
is installed with the target filter. -/
def updateBackgroundForMessage (cfg : Config) (newBg : Option (Option String))
    (filt : Option BackgroundFilter) (s : EngineState) : EngineState :=
  match newBg with
  | none => s
  | some nb =>
    let targetFilter := filt.getD cfg.providerBgFilter
    let sameUrl := s.currentBg == nb
    let sameFilter := canonFilter s.currentBgFilter == canonFilter (some targetFilter)
    if sameUrl && sameFilter then s
    else
      let s1 :=
        if isTruthyOptStr s.currentBg then
          { s with prevBg := s.currentBg, prevBgFilter := s.currentBgFilter,
                   prevVisible := true, bgFadeTimerActive := true }
        else s
      { s1 with currentBgFilter := some targetFilter, currentBg := nb }

/-- The fade timeout body (lines 229-234): clear the previous layer. -/
def bgElapseStep (s : EngineState) : EngineState :=
  if s.bgFadeTimerActive then
    { s with prevBg := none, prevBgFilter := none, prevVisible := false,
             bgFadeTimerActive := false }
  else s

/-- The narrator clearing step at the start of startTypingMessage
(lines 275-281): a new ravi message deletes a stale top pin. -/
def raviTopClear (msg : InternalMessage) (p : PinnedMap) : PinnedMap :=
  if isRaviName (parseCharacterKey msg.charecter).name then { p with top := none } else p

/-- The side clearing step of startTypingMessage (lines 287-295): the pin
of the computed starting side is deleted. -/
def sideClear (side : Side) (p : PinnedMap) : PinnedMap :=
  match side with
  | Side.left => { p with left := none }
  | Side.right => { p with right := none }

/-- startTypingMessage (lines 264-317).  All call sites check the index
bound first, so the out-of-range branch is unreachable and modelled as a
no-op. -/
def startTypingMessage (cfg : Config) (msgs : List InternalMessage) (idx : Nat)
    (s : EngineState) : EngineState :=
  match msgs.get? idx with
  | none => s
  | some msg =>
    let s := { s with typingTimerActive := false }
    let s := updateBackgroundForMessage cfg msg.bgImage msg.filter s
    let s := { s with pinned := sideClear (computedStartingSide cfg msg) (raviTopClear msg s.pinned) }
    { s with currentMessage := some msg,
             prevMessage := if idx > 0 then msgs.get? (idx - 1) else none,
             display := "", typing := true, isActive := true,
             typedPos := 0, typingTimerActive := true }

/-- pinIfNeeded (lines 319-333): a showTimes message is copied into the
top slot when it is a narrator message, else into the slot of its
computed side. -/
def pinIfNeeded (cfg : Config) (m : Option InternalMessage) (s : EngineState) : EngineState :=
  match m with
  | none => s
  | some msg =>
    if !msg.showTimes then s
    else
      if isRaviName (parseCharacterKey msg.charecter).name then
        { s with pinned := { s.pinned with top := some msg } }
      else
        match computedStartingSide cfg msg with
        | Side.left => { s with pinned := { s.pinned with left := some msg } }
        | Side.right => { s with pinned := { s.pinned with right := some msg } }

/-- finishDialogueImmediately (lines 335-358): clear both timers, reset
every playback field, restore the provider background, invoke onFinished
when present, and resolve-and-clear the pending promise when present. -/
def finishDialogueImmediately (cfg : Config) (s : EngineState) : EngineState :=
  { s with
    typingTimerActive := false, bgFadeTimerActive := false,
    activeMessages := none, index := 0, currentMessage := none, prevMessage := none,
    display := "", typing := false, isActive := false, pinned := {},
    currentBg := cfg.providerBgImage, currentBgFilter := some cfg.providerBgFilter,
    prevBg := none, prevBgFilter := none, prevVisible := false,
    finishedCount := if cfg.hasOnFinished then s.finishedCount + 1 else s.finishedCount,
    pendingResolve := none,
    resolvedPromises :=
      match s.pendingResolve with
      | some p => p :: s.resolvedPromises
      | none => s.resolvedPromises }

/-- The skip-typing branch shared by onClick and the Space/Enter handler:
stop the interval and reveal the full text. -/
def revealCurrent (s : EngineState) : EngineState :=
  match s.currentMessage with
  | some m => { s with typingTimerActive := false, display := m.text, typing := false }
  | none => s

/-- The advance tail shared by onClick (both activeRedo branches) and the
Space/Enter handler: pin the current message if needed, then either start
typing the next message or finish the dialogue. -/
def advanceOrFinish (cfg : Config) (msgs : List InternalMessage) (s : EngineState) :
    EngineState :=
  let nextIndex := s.index + 1
  let s := pinIfNeeded cfg s.currentMessage s
  if nextIndex < msgs.length then
    startTypingMessage cfg msgs nextIndex { s with index := nextIndex }
  else finishDialogueImmediately cfg s

/-- onClick (lines 361-416).  Guarded by isActive and a non-null script;
while typing it reveals the full text; with activeRedo a left-half click
rewinds by one (clamped at zero) and a right-half click advances;
otherwise every click advances. -/
def onClick (cfg : Config) (isLeftHalf : Bool) (s : EngineState) : EngineState :=
  if !s.isActive then s
  else
    match s.activeMessages with
    | none => s
    | some msgs =>
      if s.typing && s.currentMessage.isSome then revealCurrent s
      else if cfg.activeRedo then
        if isLeftHalf then
          let prevIndex := s.index - 1
          if prevIndex ≠ s.index ∧ prevIndex < msgs.length then
            startTypingMessage cfg msgs prevIndex { s with index := prevIndex }
          else s
        else advanceOrFinish cfg msgs s
      else advanceOrFinish cfg msgs s

/-- The Space/Enter branch of onKey (lines 419-440): identical to the
default click behaviour. -/
def onKeyPrimary (cfg : Config) (s : EngineState) : EngineState :=
  if !s.isActive then s
  else
    match s.activeMessages with
    | none => s
    | some msgs =>
      if s.typing && s.currentMessage.isSome then revealCurrent s
      else advanceOrFinish cfg msgs s

/-- The ArrowLeft branch of onKey (lines 445-452): gated only by
activeRedo, never by isActive. -/
def onArrowLeft (cfg : Config) (s : EngineState) : EngineState :=
  if cfg.activeRedo then
    let prevIndex := s.index - 1
    match s.activeMessages with
    | some msgs =>
      if prevIndex ≠ s.index ∧ prevIndex < msgs.length then
        startTypingMessage cfg msgs prevIndex { s with index := prevIndex }
      else s
    | none => s
  else s

/-- The ArrowRight branch of onKey (lines 453-464): gated only by
activeRedo; pins the current message, advances when within bounds, and
otherwise (including when no script is active at all) finishes, invoking
onFinished. -/
def onArrowRight (cfg : Config) (s : EngineState) : EngineState :=
  if cfg.activeRedo then
    let s1 := pinIfNeeded cfg s.currentMessage s
    match s1.activeMessages with
    | some msgs =>
      if s.index + 1 < msgs.length then
        startTypingMessage cfg msgs (s.index + 1) { s1 with index := s.index + 1 }
      else finishDialogueImmediately cfg s1
    | none => finishDialogueImmediately cfg s1
  else s

/-- One tick of the typing interval (lines 307-314): reveal one more
character; when the whole text is shown, stop the interval and leave the
Typing state. -/
def typingTick (s : EngineState) : EngineState :=
  if s.typingTimerActive then
    match s.currentMessage with
    | some m =>
      let pos := s.typedPos + 1
      let s := { s with typedPos := pos, display := String.mk (m.text.data.take pos) }
      if m.text.length ≤ pos then { s with typingTimerActive := false, typing := false }
      else s
    | none => s
  else s

/-- prepareMessages (lines 181-189). -/
def prepareMessages (speed : Nat) (messages : List DialogueMessage) : List InternalMessage :=
  messages.map fun m =>
    { toDialogueMessage := m,
      resolvedTypeSpeed := m.typeSpeed.getD speed,
      resolvedTextColor := m.textColor.getD "#000000",
      resolvedBgColor := m.bgColor.getD "#ffffff",
      resolvedFontSize := m.fontSize,
      resolvedFontWeight := m.fontWeight }

/-- dialogue (lines 494-515), the play() entry point.  An empty (or, in
JS, absent) message list returns an already-resolved promise without
touching any state.  Otherwise the background is reset to the provider
default, the script installed, the pins cleared, typing of message 0
started (the index effect of lines 488-492), and a fresh pending promise
stored in the single resolution slot — silently replacing any previous
one. -/
def dialoguePlay (cfg : Config) (messages : List DialogueMessage) (s : EngineState) :
    EngineState × PlayResult :=
  if messages.isEmpty then (s, PlayResult.immediate)
  else
    let prepared := prepareMessages cfg.speed messages
    let s := { s with
      currentBg := cfg.providerBgImage, currentBgFilter := some cfg.providerBgFilter,
      prevBg := none, prevBgFilter := none, prevVisible := false,
      activeMessages := some prepared, index := 0, isActive := true, pinned := {} }
    let s := startTypingMessage cfg prepared 0 s
    ({ s with pendingResolve := some s.nextPromiseId, nextPromiseId := s.nextPromiseId + 1 },
      PlayResult.pending s.nextPromiseId)

/-- handleSkipClick (lines 778-781); the button exists only while the
overlay is rendered (isActive) and canSkip is set. -/
def handleSkipClick (cfg : Config) (s : EngineState) : EngineState :=
  if cfg.canSkip && s.isActive then finishDialogueImmediately cfg s else s

/-- resolveCurrentCharacter (lines 517-523). -/
structure ResolvedCharacter where
  name : String
  mode : String
  src : String
  side : Side
deriving DecidableEq, Repr

def resolveCurrentCharacter (cfg : Config) (m : Option InternalMessage) : ResolvedCharacter :=
  match m with
  | none => { name := "", mode := "default", src := "", side := Side.left }
  | some msg =>
    let parsed := parseCharacterKey msg.charecter
    let found := findCharacterEntryByName cfg parsed.name msg.mode
    let finalSide :=
      (msg.forcedSide.orElse (fun _ => parsed.forcedSide)).getD (found.foundOn.getD Side.left)
    { name := parsed.name,
      mode := (msg.mode.orElse (fun _ => found.entry.bind (fun e => e.mode))).getD "default",
      src := (found.entry.map (fun e => e.src)).getD "",
      side := finalSide }

/-- External events driving the engine. -/
inductive Cmd where
  | click (isLeftHalf : Bool)
  | keyPrimary
  | arrowLeft
  | arrowRight
  | tick
  | bgElapse
  | play (messages : List DialogueMessage)
  | skip
deriving DecidableEq, Repr

/-- One event step of the engine. -/
def step (cfg : Config) : Cmd → EngineState → EngineState
  | Cmd.click h => onClick cfg h
  | Cmd.keyPrimary => onKeyPrimary cfg
  | Cmd.arrowLeft => onArrowLeft cfg
  | Cmd.arrowRight => onArrowRight cfg
  | Cmd.tick => typingTick
  | Cmd.bgElapse => bgElapseStep
  | Cmd.play msgs => fun s => (dialoguePlay cfg msgs s).1
  | Cmd.skip => handleSkipClick cfg

/-- A run of the engine over a list of events. -/
def run (cfg : Config) (cmds : List Cmd) (s : EngineState) : EngineState :=
  cmds.foldl (fun t c => step cfg c t) s

/-! Manifest loader (lines 103-179).  The fetch loop over the two
candidate URLs is modelled by a list of attempt outcomes; every JS
failure mode (network rejection, non-ok response, JSON parse rejection,
JSON without a truthy characters object) fails to produce a manifest and
moves on to the next URL. -/

/-- Outcome of one fetch attempt in the tryLoad loop. -/
inductive FetchAttempt where
  | throws
  | notOk
  | okJson (m : Option (List (String × List String)))
deriving DecidableEq, Repr

/-- The characters manifest: mapping from character name to file list,
in Object.entries order. -/
structure CharactersManifest where
  characters : List (String × List String)
deriving DecidableEq, Repr

/-- The manifest selected by the for-loop: the first attempt that yields
a JSON object with a truthy characters field. -/
def firstManifest : List FetchAttempt → Option CharactersManifest
  | [] => none
  | FetchAttempt.okJson (some m) :: _ => some { characters := m }
  | _ :: rest => firstManifest rest

/-- charectersPath.replace of a single trailing slash. -/
def stripTrailingSlash (s : String) : String :=
  match s.data.reverse with
  | '/' :: rest => String.mk rest.reverse
  | _ => s

/-- filename.replace of the trailing dot-extension (a dot followed by at
least one non-dot character at the end of the string); when no such
suffix exists the filename is returned unchanged. -/
def stripLastExt (filename : String) : String :=
  match filename.data.reverse.dropWhile (fun c => c != '.') with
  | [] => filename
  | _ :: rest =>
    if filename.data.reverse.takeWhile (fun c => c != '.') = [] then filename
    else String.mk rest.reverse

/-- modeFromFilename (lines 30-34): the filename stem, with a stem whose
lowercase form is "default" meaning no mode. -/
def modeFromFilename (filename : String) : Option String :=
  let name := stripLastExt filename
  if lowerString name = "default" then none else some name

/-- The case-insensitive whole-string test for a default-stem file name
used to decide whether to synthesize a fallback entry. -/
def isDefaultFile (f : String) : Bool :=
  if stripLastExt f == f then false else lowerString (stripLastExt f) == "default"

/-- Array.from(new Set(files)): deduplication keeping first occurrences. -/
def dedupFirst (l : List String) : List String :=
  l.foldl (fun acc f => if acc.contains f then acc else acc ++ [f]) []

/-- One character in UTF-8, as byte values. -/
def utf8Bytes (c : Char) : List Nat :=
  let n := c.toNat
  if n < 0x80 then [n]
  else if n < 0x800 then [0xC0 + n / 0x40, 0x80 + n % 0x40]
  else if n < 0x10000 then
    [0xE0 + n / 0x1000, 0x80 + n / 0x40 % 0x40, 0x80 + n % 0x40]
  else
    [0xF0 + n / 0x40000, 0x80 + n / 0x1000 % 0x40, 0x80 + n / 0x40 % 0x40, 0x80 + n % 0x40]

/-- Uppercase hexadecimal digit. -/
def hexDigitChar (n : Nat) : Char :=
  if n < 10 then Char.ofNat (48 + n) else Char.ofNat (55 + n)

/-- Percent-encoding of one byte value. -/
def percentByte (b : Nat) : List Char :=
  ['%', hexDigitChar (b / 16 % 16), hexDigitChar (b % 16)]

/-- JS encodeURIComponent: unreserved characters pass through, everything
else is percent-encoded as UTF-8. -/
def encodeURIComponent (s : String) : String :=
  String.mk (s.data.flatMap fun c =>
    if c.isAlpha || c.isDigit ||
        c = '-' || c = '_' || c = '.' || c = '!' || c = '~' || c = '*' ||
        c = '\x27' || c = '(' || c = ')' then
      [c]
    else (utf8Bytes c).flatMap percentByte)

/-- The entries produced for one character of the manifest
(lines 147-162): one entry per deduplicated file with the mode derived
from the stem, plus, when no default-stem file exists and the list is
non-empty, a synthesized unmoded fallback pointing at the first file. -/
def entriesForCharacter (basePath : String) (charName : String) (files : List String) :
    List CharacterEntry :=
  let uniqueFiles := dedupFirst files
  let srcFor : String → String := fun filename =>
    basePath ++ "/" ++ encodeURIComponent charName ++ "/" ++ encodeURIComponent filename
  let base := uniqueFiles.map fun filename =>
    { name := charName, mode := modeFromFilename filename, src := srcFor filename }
  match uniqueFiles with
  | [] => base
  | first :: _ =>
    if uniqueFiles.any isDefaultFile then base
    else base ++ [{ name := charName, mode := none, src := srcFor first }]

/-- The full expansion of a manifest into one entry list (the source
pushes the same objects into both the left and the right list). -/
def expandManifest (basePath : String) (m : CharactersManifest) : List CharacterEntry :=
  (m.characters.map fun p => entriesForCharacter basePath p.1 p.2).flatten

/-- Result of the tryLoad step: the runtime entry lists (null on
failure) and whether a warning was logged. -/
structure LoaderResult where
  runtimeLeftCharacters : Option (List CharacterEntry)
  runtimeRightCharacters : Option (List CharacterEntry)
  warned : Bool
deriving DecidableEq, Repr

/-- tryLoad (lines 112-167): when no attempt produced a manifest, warn
and leave both runtime lists null; otherwise expand the manifest into
both lists. -/
def tryLoadModel (charectersPath : String) (attempts : List FetchAttempt) : LoaderResult :=
  match firstManifest attempts with
  | none => { runtimeLeftCharacters := none, runtimeRightCharacters := none, warned := true }
  | some m =>
    let entries := expandManifest (stripTrailingSlash charectersPath) m
    { runtimeLeftCharacters := some entries, runtimeRightCharacters := some entries,
      warned := false }

/-- Lines 178-179: effective character list is runtime ?? props. -/
def effectiveChars (runtime : Option (List CharacterEntry))
    (props : List CharacterEntry) : List CharacterEntry :=
  runtime.getD props

/-! Helper lemmas: each engine operation only touches the fields it sets. -/

/-- The promise-related observables: pending slot, serial counter,
resolution log. -/
def promiseView (s : EngineState) : Option Nat × Nat × List Nat :=
  (s.pendingResolve, s.nextPromiseId, s.resolvedPromises)

theorem updBg_core (cfg : Config) (nb : Option (Option String))
    (f : Option BackgroundFilter) (s : EngineState) :
    ∃ cb cbf pb pbf pv ft,
      updateBackgroundForMessage cfg nb f s =
        { s with currentBg := cb, currentBgFilter := cbf, prevBg := pb,
                 prevBgFilter := pbf, prevVisible := pv, bgFadeTimerActive := ft } := by
  unfold updateBackgroundForMessage
  cases nb with
  | none =>
    exact ⟨s.currentBg, s.currentBgFilter, s.prevBg, s.prevBgFilter, s.prevVisible,
      s.bgFadeTimerActive, rfl⟩
  | some nb =>
    dsimp only
    split
    · exact ⟨s.currentBg, s.currentBgFilter, s.prevBg, s.prevBgFilter, s.prevVisible,
        s.bgFadeTimerActive, rfl⟩
    · split
      · exact ⟨nb, _, s.currentBg, s.currentBgFilter, true, true, rfl⟩
      · exact ⟨nb, _, s.prevBg, s.prevBgFilter, s.prevVisible, s.bgFadeTimerActive, rfl⟩

theorem pinIfNeeded_core (cfg : Config) (m : Option InternalMessage) (s : EngineState) :
    ∃ p, pinIfNeeded cfg m s = { s with pinned := p } := by
  unfold pinIfNeeded
  cases m with
  | none => exact ⟨s.pinned, rfl⟩
  | some msg =>
    dsimp only
    split
    · exact ⟨s.pinned, rfl⟩
    · split
      · exact ⟨_, rfl⟩
      · split <;> exact ⟨_, rfl⟩

theorem startTyping_core (cfg : Config) (msgs : List InternalMessage) (idx : Nat)
    (s : EngineState) (msg : InternalMessage) (h : msgs.get? idx = some msg) :
    ∃ cb cbf pb pbf pv ft,
      startTypingMessage cfg msgs idx s =
        { s with currentBg := cb, currentBgFilter := cbf, prevBg := pb,
                 prevBgFilter := pbf, prevVisible := pv, bgFadeTimerActive := ft,
                 pinned := sideClear (computedStartingSide cfg msg) (raviTopClear msg s.pinned),
                 currentMessage := some msg,
                 prevMessage := if idx > 0 then msgs.get? (idx - 1) else none,
                 display := "", typing := true, isActive := true, typedPos := 0,
                 typingTimerActive := true } := by
  unfold startTypingMessage
  rw [h]
  dsimp only
  obtain ⟨cb, cbf, pb, pbf, pv, ft, hbg⟩ :=
    updBg_core cfg msg.bgImage msg.filter { s with typingTimerActive := false }
  rw [hbg]
  exact ⟨cb, cbf, pb, pbf, pv, ft, rfl⟩

theorem pv_startTyping (cfg : Config) (msgs : List InternalMessage) (idx : Nat)
    (s : EngineState) : promiseView (startTypingMessage cfg msgs idx s) = promiseView s := by
  cases h : msgs.get? idx with
  | none => unfold startTypingMessage; rw [h]
  | some msg =>
    obtain ⟨cb, cbf, pb, pbf, pv, ft, hc⟩ := startTyping_core cfg msgs idx s msg h
    rw [hc]; rfl

theorem pv_pinIfNeeded (cfg : Config) (m : Option InternalMessage) (s : EngineState) :
    promiseView (pinIfNeeded cfg m s) = promiseView s := by
  obtain ⟨p, hp⟩ := pinIfNeeded_core cfg m s
  rw [hp]; rfl

theorem pv_revealCurrent (s : EngineState) :
    promiseView (revealCurrent s) = promiseView s := by
  unfold revealCurrent
  split <;> rfl

theorem pv_typingTick (s : EngineState) :
    promiseView (typingTick s) = promiseView s := by
  unfold typingTick
  split
  · split
    · dsimp only
      split <;> rfl
    · rfl
  · rfl

theorem pv_bgElapse (s : EngineState) :
    promiseView (bgElapseStep s) = promiseView s := by
  unfold bgElapseStep
  split <;> rfl

theorem advanceOrFinish_shape (cfg : Config) (msgs : List InternalMessage) (s : EngineState) :
    promiseView (advanceOrFinish cfg msgs s) = promiseView s ∨
    ∃ t, advanceOrFinish cfg msgs s = finishDialogueImmediately cfg t ∧
      promiseView t = promiseView s := by
  unfold advanceOrFinish
  dsimp only
  split
  · left
    rw [pv_startTyping]
    exact pv_pinIfNeeded cfg s.currentMessage s
  · right
    exact ⟨pinIfNeeded cfg s.currentMessage s, rfl, pv_pinIfNeeded cfg s.currentMessage s⟩

theorem step_promise_shape (cfg : Config) (c : Cmd) (s : EngineState) :
    promiseView (step cfg c s) = promiseView s ∨
    (∃ t, step cfg c s = finishDialogueImmediately cfg t ∧ promiseView t = promiseView s) ∨
    (∃ t, step cfg c s =
        { t with pendingResolve := some t.nextPromiseId,
                 nextPromiseId := t.nextPromiseId + 1 } ∧
      promiseView t = promiseView s) := by
  cases c with
  | click h =>
    simp only [step]
    unfold onClick
    split
    · left; rfl
    · split
      · left; rfl
      · split
        · left; exact pv_revealCurrent s
        · split
          · split
            · dsimp only
              split
              · left; rw [pv_startTyping]; rfl
              · left; rfl
            · rcases advanceOrFinish_shape cfg _ s with h | h
              · left; exact h
              · right; left; exact h
          · rcases advanceOrFinish_shape cfg _ s with h | h
            · left; exact h
            · right; left; exact h
  | keyPrimary =>
    simp only [step]
    unfold onKeyPrimary
    split
    · left; rfl
    · split
      · left; rfl
      · split
        · left; exact pv_revealCurrent s
        · rcases advanceOrFinish_shape cfg _ s with h | h
          · left; exact h
          · right; left; exact h
  | arrowLeft =>
    simp only [step]
    unfold onArrowLeft
    split
    · dsimp only
      split
      · split
        · left; rw [pv_startTyping]; rfl
        · left; rfl
      · left; rfl
    · left; rfl
  | arrowRight =>
    simp only [step]
    unfold onArrowRight
    split
    · dsimp only
      split
      · split
        · left
          rw [pv_startTyping]
          exact pv_pinIfNeeded cfg s.currentMessage s
        · right; left
          exact ⟨pinIfNeeded cfg s.currentMessage s, rfl, pv_pinIfNeeded cfg s.currentMessage s⟩
      · right; left
        exact ⟨pinIfNeeded cfg s.currentMessage s, rfl, pv_pinIfNeeded cfg s.currentMessage s⟩
    · left; rfl
  | tick => simp only [step]; left; exact pv_typingTick s
  | bgElapse => simp only [step]; left; exact pv_bgElapse s
  | play msgs =>
    simp only [step]
    unfold dialoguePlay
    dsimp only
    split
    · left; rfl
    · right; right
      refine ⟨_, rfl, ?_⟩
      rw [pv_startTyping]
      rfl
  | skip =>
    simp only [step]
    unfold handleSkipClick
    split
    · right; left; exact ⟨s, rfl, rfl⟩
    · left; rfl

/-! Promise lifecycle: the single resolution slot, the serial promise
ids, and the log of resolutions. -/

/-- Invariant of the promise observables: no promise is ever resolved
twice, every logged or pending id was issued, and a pending id has not
been resolved yet. -/
def PromiseInv (s : EngineState) : Prop :=
  s.resolvedPromises.Nodup ∧
  (∀ q ∈ s.resolvedPromises, q < s.nextPromiseId) ∧
  (∀ q ∈ s.pendingResolve.toList, q < s.nextPromiseId ∧ q ∉ s.resolvedPromises)

/-- A promise that was issued, never resolved, and is no longer in the
pending slot: exactly the state of a play() promise that was silently
replaced by a newer play() call. -/
def OrphanedPromise (p : Nat) (s : EngineState) : Prop :=
  p < s.nextPromiseId ∧ p ∉ s.resolvedPromises ∧ s.pendingResolve ≠ some p

theorem promiseInv_congr {s t : EngineState} (h : promiseView t = promiseView s)
    (hs : PromiseInv s) : PromiseInv t := by
  unfold promiseView at h
  simp only [Prod.mk.injEq] at h
  obtain ⟨h1, h2, h3⟩ := h
  unfold PromiseInv at *
  rw [h1, h2, h3]
  exact hs

theorem orphan_congr {s t : EngineState} {p : Nat} (h : promiseView t = promiseView s)
    (hs : OrphanedPromise p s) : OrphanedPromise p t := by
  unfold promiseView at h
  simp only [Prod.mk.injEq] at h
  obtain ⟨h1, h2, h3⟩ := h
  unfold OrphanedPromise at *
  rw [h1, h2, h3]
  exact hs

theorem promiseInv_finish (cfg : Config) {s : EngineState} (hs : PromiseInv s) :
    PromiseInv (finishDialogueImmediately cfg s) := by
  obtain ⟨hn, hb, hp⟩ := hs
  unfold PromiseInv finishDialogueImmediately
  dsimp only
  cases hpend : s.pendingResolve with
  | none => exact ⟨hn, hb, by simp⟩
  | some q =>
    have hq := hp q (by simp [hpend])
    refine ⟨List.nodup_cons.mpr ⟨hq.2, hn⟩, ?_, by simp⟩
    intro r hr
    rcases List.mem_cons.mp hr with h | h
    · subst h; exact hq.1
    · exact hb r h

theorem orphan_finish (cfg : Config) {s : EngineState} {p : Nat} (hs : OrphanedPromise p s) :
    OrphanedPromise p (finishDialogueImmediately cfg s) := by
  obtain ⟨h1, h2, h3⟩ := hs
  unfold OrphanedPromise finishDialogueImmediately
  dsimp only
  refine ⟨h1, ?_, by simp⟩
  cases hpend : s.pendingResolve with
  | none => exact h2
  | some q =>
    intro hmem
    rcases List.mem_cons.mp hmem with h | h
    · subst h; exact h3 hpend
    · exact h2 h

theorem promiseInv_step (cfg : Config) (c : Cmd) (s : EngineState) (hs : PromiseInv s) :
    PromiseInv (step cfg c s) := by
  rcases step_promise_shape cfg c s with h | ⟨t, ht, hpv⟩ | ⟨t, ht, hpv⟩
  · exact promiseInv_congr h hs
  · rw [ht]; exact promiseInv_finish cfg (promiseInv_congr hpv hs)
  · rw [ht]
    obtain ⟨hn, hb, _⟩ := promiseInv_congr hpv hs
    refine ⟨hn, ?_, ?_⟩
    · intro q hq
      exact Nat.lt_succ_of_lt (hb q hq)
    · intro q hq
      simp only [Option.toList, List.mem_singleton] at hq
      subst hq
      exact ⟨Nat.lt_succ_self _, fun hmem => Nat.lt_irrefl _ (hb _ hmem)⟩

theorem orphan_step (cfg : Config) (c : Cmd) (s : EngineState) {p : Nat}
    (hs : OrphanedPromise p s) : OrphanedPromise p (step cfg c s) := by
  rcases step_promise_shape cfg c s with h | ⟨t, ht, hpv⟩ | ⟨t, ht, hpv⟩
  · exact orphan_congr h hs
  · rw [ht]; exact orphan_finish cfg (orphan_congr hpv hs)
  · rw [ht]
    obtain ⟨h1, h2, h3⟩ := orphan_congr hpv hs
    refine ⟨Nat.lt_succ_of_lt h1, h2, ?_⟩
    intro heq
    injection heq with h4
    exact Nat.lt_irrefl p (h4 ▸ h1)

theorem run_cons (cfg : Config) (c : Cmd) (cs : List Cmd) (s : EngineState) :
    run cfg (c :: cs) s = run cfg cs (step cfg c s) := rfl

theorem promiseInv_run (cfg : Config) (cmds : List Cmd) (s : EngineState)
    (hs : PromiseInv s) : PromiseInv (run cfg cmds s) := by
  induction cmds generalizing s with
  | nil => exact hs
  | cons c cs ih => exact ih _ (promiseInv_step cfg c s hs)

theorem orphan_run (cfg : Config) (cmds : List Cmd) (s : EngineState) {p : Nat}
    (hs : OrphanedPromise p s) : OrphanedPromise p (run cfg cmds s) := by
  induction cmds generalizing s with
  | nil => exact hs
  | cons c cs ih => exact ih _ (orphan_step cfg c s hs)

theorem play_nonempty_shape (cfg : Config) (messages : List DialogueMessage)
    (hne : messages ≠ []) (s : EngineState) :
    ∃ t, step cfg (Cmd.play messages) s =
      { t with pendingResolve := some t.nextPromiseId,
               nextPromiseId := t.nextPromiseId + 1 } ∧
      promiseView t = promiseView s := by
  have hemp : messages.isEmpty = false := by
    cases messages with
    | nil => exact absurd rfl hne
    | cons a l => rfl
  simp only [step]
  unfold dialoguePlay
  rw [hemp]
  dsimp only
  refine ⟨_, rfl, ?_⟩
  rw [pv_startTyping]
  rfl

/-- Claim C2: the promise returned by a play() call with a non-empty
script resolves at most once — the resolution log stays duplicate-free
and a pending id is never already in the log — and a promise that is
silently replaced by a later play() call is never settled by any
subsequent sequence of events. -/
theorem dialogueC2_promise_single_shot (cfg : Config) (s : EngineState) (p : Nat)
    (hinv : PromiseInv s) (hpend : s.pendingResolve = some p)
    (messages : List DialogueMessage) (hne : messages ≠ []) :
    (step cfg (Cmd.play messages) s).pendingResolve ≠ some p ∧
    ∀ cmds : List Cmd,
      p ∉ (run cfg cmds (step cfg (Cmd.play messages) s)).resolvedPromises ∧
      (run cfg cmds (step cfg (Cmd.play messages) s)).resolvedPromises.Nodup ∧
      (∀ q, (run cfg cmds (step cfg (Cmd.play messages) s)).pendingResolve = some q →
        q ∉ (run cfg cmds (step cfg (Cmd.play messages) s)).resolvedPromises) := by
  obtain ⟨t, ht, hpv⟩ := play_nonempty_shape cfg messages hne s
  have hple : p < s.nextPromiseId ∧ p ∉ s.resolvedPromises :=
    hinv.2.2 p (by simp [hpend])
  unfold promiseView at hpv
  simp only [Prod.mk.injEq] at hpv
  obtain ⟨hp1, hp2, hp3⟩ := hpv
  have horph : OrphanedPromise p (step cfg (Cmd.play messages) s) := by
    rw [ht]
    refine ⟨?_, ?_, ?_⟩
    · show p < t.nextPromiseId + 1
      rw [hp2]
      exact Nat.lt_succ_of_lt hple.1
    · show p ∉ t.resolvedPromises
      rw [hp3]
      exact hple.2
    · show some t.nextPromiseId ≠ some p
      intro heq
      injection heq with h4
      rw [hp2] at h4
      exact Nat.lt_irrefl p (h4 ▸ hple.1)
  have hinv' : PromiseInv (step cfg (Cmd.play messages) s) :=
    promiseInv_step cfg _ s hinv
  refine ⟨horph.2.2, ?_⟩
  intro cmds
  have ho := orphan_run cfg cmds _ horph
  have hi := promiseInv_run cfg cmds _ hinv'
  exact ⟨ho.2.1, hi.1, fun q hq => (hi.2.2 q (by simp [hq])).2⟩

/-- Default provider configuration used in concrete runs. -/
def cfgDefault : Config := {}

/-- A minimal concrete message. -/
def msgHi : DialogueMessage := { text := "Hi", charecter := "Ali" }

/-- A state in which promise 0 is pending (as after a first play()). -/
def statePending0 : EngineState :=
  { pendingResolve := some 0, nextPromiseId := 1, isActive := true }

/-- Witness for C2: concretely, starting a script while promise 0 is
pending replaces it, and after a skip only promise 1 is ever resolved. -/
theorem dialogueC2_promise_single_shot_witness :
    (step cfgDefault (Cmd.play [msgHi]) statePending0).pendingResolve ≠ some 0 ∧
    (0 ∉ (run cfgDefault [Cmd.skip]
        (step cfgDefault (Cmd.play [msgHi]) statePending0)).resolvedPromises ∧
      (run cfgDefault [Cmd.skip]
        (step cfgDefault (Cmd.play [msgHi]) statePending0)).resolvedPromises.Nodup ∧
      (∀ q, (run cfgDefault [Cmd.skip]
            (step cfgDefault (Cmd.play [msgHi]) statePending0)).pendingResolve = some q →
        q ∉ (run cfgDefault [Cmd.skip]
            (step cfgDefault (Cmd.play [msgHi]) statePending0)).resolvedPromises)) := by
  have hstinv : PromiseInv statePending0 := by
    refine ⟨?_, ?_, ?_⟩
    · simp [statePending0]
    · simp [statePending0]
    · intro q hq
      simp only [statePending0, Option.toList, List.mem_singleton] at hq
      subst hq
      simp [statePending0]
  have h := dialogueC2_promise_single_shot cfgDefault statePending0 0 hstinv rfl [msgHi]
    (by simp)
  exact ⟨h.1, h.2 [Cmd.skip]⟩

/-- Claim C7: calling play() with an empty message list returns an
already-resolved promise and leaves the entire engine state — script,
position, typed text, active flag, pins, background, pending promise —
exactly as it was. -/
theorem dialogueC7_empty_play_noop (cfg : Config) (s : EngineState) :
    dialoguePlay cfg [] s = (s, PlayResult.immediate) := rfl

/-- Counterexample for C8: finishDialogueImmediately is not a no-op when
the engine is already Idle — the initial state is Idle, yet each call
invokes the onFinished callback again, so two calls fire it twice for
zero completed runs. -/
theorem dialogueC8_cex :
    (initialEngineState cfgDefault).isActive = false ∧
    (finishDialogueImmediately cfgDefault (initialEngineState cfgDefault)).finishedCount = 1 ∧
    (finishDialogueImmediately cfgDefault
        (finishDialogueImmediately cfgDefault (initialEngineState cfgDefault))).finishedCount
      = 2 ∧
    finishDialogueImmediately cfgDefault
        (finishDialogueImmediately cfgDefault (initialEngineState cfgDefault)) ≠
      finishDialogueImmediately cfgDefault (initialEngineState cfgDefault) := by
  refine ⟨rfl, rfl, rfl, by decide⟩

/-- Claim C8 (amended): finishDialogueImmediately is idempotent on the
engine state — a second call recreates exactly the same state — and the
pending promise is resolved at most once because the first call clears
the slot; but the onFinished callback fires on every call (when
configured), not once per run. -/
theorem dialogueC8_amended_finish_idempotent (cfg : Config) (s : EngineState) :
    finishDialogueImmediately cfg (finishDialogueImmediately cfg s) =
      { finishDialogueImmediately cfg s with
        finishedCount :=
          if cfg.hasOnFinished then (finishDialogueImmediately cfg s).finishedCount + 1
          else (finishDialogueImmediately cfg s).finishedCount } ∧
    (finishDialogueImmediately cfg s).pendingResolve = none ∧
    (finishDialogueImmediately cfg (finishDialogueImmediately cfg s)).resolvedPromises =
      (finishDialogueImmediately cfg s).resolvedPromises := by
  exact ⟨rfl, rfl, rfl⟩

/-- Claim C1: with an active script, an advance (a click that is not an
activeRedo left-half rewind) received while Typing only reveals the full
text of the current message — position untouched; received while paused
at end of message it moves the position forward by exactly one when
another message remains, and otherwise finishes the script (inactive,
script cleared, position reset, promise slot cleared). -/
theorem dialogueC1_advance (cfg : Config) (s : EngineState) (msgs : List InternalMessage)
    (m : InternalMessage) (hact : s.isActive = true) (hmsgs : s.activeMessages = some msgs)
    (hcur : s.currentMessage = some m) :
    (s.typing = true →
      onClick cfg false s =
        { s with typingTimerActive := false, display := m.text, typing := false }) ∧
    (s.typing = false →
      (s.index + 1 < msgs.length →
        (onClick cfg false s).index = s.index + 1 ∧
        (onClick cfg false s).isActive = true ∧
        (onClick cfg false s).typing = true ∧
        (onClick cfg false s).display = "") ∧
      (msgs.length ≤ s.index + 1 →
        (onClick cfg false s).isActive = false ∧
        (onClick cfg false s).activeMessages = none ∧
        (onClick cfg false s).index = 0 ∧
        (onClick cfg false s).pendingResolve = none)) := by
  constructor
  · intro hty
    have h1 : onClick cfg false s = revealCurrent s := by
      unfold onClick
      rw [hact, hmsgs]
      simp [hty, hcur]
    rw [h1]
    unfold revealCurrent
    rw [hcur]
  · intro hty
    have h2 : onClick cfg false s = advanceOrFinish cfg msgs s := by
      unfold onClick
      rw [hact, hmsgs]
      simp [hty]
    constructor
    · intro hbound
      rw [h2]
      unfold advanceOrFinish
      dsimp only
      rw [if_pos hbound]
      obtain ⟨pp, hpp⟩ := pinIfNeeded_core cfg s.currentMessage s
      rw [hpp]
      have hget := List.get?_eq_get hbound
      obtain ⟨cb, cbf, pb, pbf, pv, ft, hc⟩ :=
        startTyping_core cfg msgs (s.index + 1)
          { { s with pinned := pp } with index := s.index + 1 } _ hget
      rw [hc]
      exact ⟨rfl, rfl, rfl, rfl⟩
    · intro hge
      rw [h2]
      unfold advanceOrFinish
      dsimp only
      rw [if_neg (Nat.not_lt.mpr hge)]
      obtain ⟨pp, hpp⟩ := pinIfNeeded_core cfg s.currentMessage s
      rw [hpp]
      exact ⟨rfl, rfl, rfl, rfl⟩

/-- A minimal internal message for concrete runs. -/
def imsg (t c : String) : InternalMessage :=
  { text := t, charecter := c, resolvedTypeSpeed := 35,
    resolvedTextColor := "#000000", resolvedBgColor := "#ffffff" }

/-- A concrete mid-typing state on a two-message script. -/
def stateTypingW : EngineState :=
  { activeMessages := some [imsg "Hi" "Ali", imsg "Yo" "Eddy"], index := 0, display := "H",
    typing := true, isActive := true, currentMessage := some (imsg "Hi" "Ali"),
    typingTimerActive := true, typedPos := 1, pendingResolve := some 0, nextPromiseId := 1 }

/-- Witness for C1: a click during typing of "Hi" reveals the full text
and changes nothing else. -/
theorem dialogueC1_advance_witness :
    onClick cfgDefault false stateTypingW =
      { stateTypingW with typingTimerActive := false, display := "Hi", typing := false } :=
  (dialogueC1_advance cfgDefault stateTypingW [imsg "Hi" "Ali", imsg "Yo" "Eddy"]
      (imsg "Hi" "Ali") rfl rfl rfl).1 rfl

/-- Claim C10: with activeRedo enabled, the ArrowRight handler is not
gated by the active flag or the typing state: when no script is active
it still takes the finish path — invoking the onFinished callback with
no run in progress — and while typing it advances the position directly
(fresh empty display of the next message) instead of first revealing the
full text. -/
theorem dialogueC10_arrow_ignores_guards (cfg : Config) (s : EngineState)
    (hredo : cfg.activeRedo = true) :
    (s.activeMessages = none →
      onArrowRight cfg s = finishDialogueImmediately cfg s ∧
      (cfg.hasOnFinished = true →
        (onArrowRight cfg s).finishedCount = s.finishedCount + 1)) ∧
    (∀ msgs m, s.activeMessages = some msgs → s.currentMessage = some m →
      s.typing = true → s.index + 1 < msgs.length →
      (onArrowRight cfg s).index = s.index + 1 ∧
      (onArrowRight cfg s).typing = true ∧
      (onArrowRight cfg s).display = "") := by
  obtain ⟨pp, hpp⟩ := pinIfNeeded_core cfg s.currentMessage s
  constructor
  · intro hnone
    have key : onArrowRight cfg s = finishDialogueImmediately cfg s := by
      unfold onArrowRight
      rw [hredo]
      dsimp only
      rw [hpp]
      dsimp only
      rw [hnone]
      rfl
    refine ⟨key, ?_⟩
    intro hOn
    rw [key]
    show (if cfg.hasOnFinished then s.finishedCount + 1 else s.finishedCount) =
      s.finishedCount + 1
    rw [hOn]
    rfl
  · intro msgs m hmsgs hcur hty hbound
    have harr : onArrowRight cfg s =
        startTypingMessage cfg msgs (s.index + 1) { s with pinned := pp, index := s.index + 1 } := by
      unfold onArrowRight
      rw [hredo]
      dsimp only
      rw [hpp]
      dsimp only
      rw [hmsgs]
      dsimp only
      rw [if_pos hbound]
      rfl
    rw [harr]
    have hget := List.get?_eq_get hbound
    obtain ⟨cb, cbf, pb, pbf, pv, ft, hc⟩ :=
      startTyping_core cfg msgs (s.index + 1)
        { s with pinned := pp, index := s.index + 1 } _ hget
    rw [hc]
    exact ⟨rfl, rfl, rfl⟩

/-- Provider configuration with click-side navigation enabled. -/
def cfgRedo : Config := { activeRedo := true }

/-- Witness for C10: pressing ArrowRight in the freshly mounted (Idle)
provider invokes the finish path and fires onFinished once. -/
theorem dialogueC10_arrow_ignores_guards_witness :
    onArrowRight cfgRedo (initialEngineState cfgRedo) =
      finishDialogueImmediately cfgRedo (initialEngineState cfgRedo) ∧
    (onArrowRight cfgRedo (initialEngineState cfgRedo)).finishedCount =
      (initialEngineState cfgRedo).finishedCount + 1 := by
  have h := (dialogueC10_arrow_ignores_guards cfgRedo (initialEngineState cfgRedo) rfl).1 rfl
  exact ⟨h.1, h.2 rfl⟩

/-- A directory declaring Eddy on the right side only. -/
def cfgC3 : Config := { rightChars := [{ name := "Eddy", src := "A.png" }] }

/-- A message whose speaker key carries a non-right suffix. -/
def msgEddyUp : InternalMessage := imsg "hi" "Eddy:up"

/-- Counterexample for C3: the claim says a suffix other than "right"
leaves the side undetermined, to be resolved by directory lookup — which
here declares Eddy on the right — yet the code forces left for every
non-"right" suffix, so the resolved side is left, not right. -/
theorem dialogueC3_cex :
    (resolveCurrentCharacter cfgC3 (some msgEddyUp)).side = Side.left ∧
    (findCharacterEntryByName cfgC3 "Eddy" none).foundOn = some Side.right ∧
    (resolveCurrentCharacter cfgC3 (some msgEddyUp)).side ≠ Side.right := by
  exact ⟨rfl, rfl, by decide⟩

/-- Claim C3 (amended): a key with a colon yields a forced side — right
when the trimmed suffix lowercases to "right", left for ANY other suffix;
a key without a colon leaves the side undetermined; and the final side is
the message forcedSide when present, else the key-suffix side when
present, else the directory side, defaulting to left. -/
theorem dialogueC3_amended_key_side (raw : String) (hraw : raw ≠ "")
    (cfg : Config) (msg : InternalMessage) (σ : Side) :
    (∀ p0 p1 rest, (jsSplitColon raw).map jsTrim = p0 :: p1 :: rest →
      (parseCharacterKey raw).name = p0 ∧
      (parseCharacterKey raw).forcedSide =
        some (if lowerString p1 = "right" then Side.right else Side.left)) ∧
    (∀ p0, (jsSplitColon raw).map jsTrim = [p0] →
      (parseCharacterKey raw).name = p0 ∧ (parseCharacterKey raw).forcedSide = none) ∧
    (msg.forcedSide = some σ → (resolveCurrentCharacter cfg (some msg)).side = σ) ∧
    (msg.forcedSide = none → (parseCharacterKey msg.charecter).forcedSide = some σ →
      (resolveCurrentCharacter cfg (some msg)).side = σ) ∧
    (msg.forcedSide = none → (parseCharacterKey msg.charecter).forcedSide = none →
      (resolveCurrentCharacter cfg (some msg)).side =
        ((findCharacterEntryByName cfg (parseCharacterKey msg.charecter).name
            msg.mode).foundOn).getD Side.left) := by
  refine ⟨?_, ?_, ?_, ?_, ?_⟩
  · intro p0 p1 rest hparts
    unfold parseCharacterKey
    rw [if_neg hraw]
    dsimp only
    rw [hparts]
    rw [if_pos (show (p0 :: p1 :: rest).length > 1 from
      Nat.succ_lt_succ (Nat.succ_pos rest.length))]
    simp only [List.get?_cons_succ, List.get?_cons_zero, Option.getD_some]
    split_ifs with h <;> exact ⟨rfl, rfl⟩
  · intro p0 hparts
    unfold parseCharacterKey
    rw [if_neg hraw]
    dsimp only
    rw [hparts]
    rw [if_neg (show ¬([p0].length > 1) from Nat.lt_irrefl 1)]
    exact ⟨rfl, rfl⟩
  · intro hσ
    unfold resolveCurrentCharacter
    dsimp only
    rw [hσ]
    rfl
  · intro h1 h2
    unfold resolveCurrentCharacter
    dsimp only
    rw [h1, h2]
    rfl
  · intro h1 h2
    unfold resolveCurrentCharacter
    dsimp only
    rw [h1, h2]
    rfl

/-- Witness for C3 (amended): the suffix comparison is case-insensitive
("RIGHT" forces right), "up" forces left, and with no suffix the side
comes from the directory (right for Eddy in cfgC3). -/
theorem dialogueC3_amended_key_side_witness :
    ((parseCharacterKey "Eddy:RIGHT").name = "Eddy" ∧
      (parseCharacterKey "Eddy:RIGHT").forcedSide = some Side.right) ∧
    (resolveCurrentCharacter cfgC3 (some (imsg "hi" "Eddy"))).side = Side.right := by
  constructor
  · have h := (dialogueC3_amended_key_side "Eddy:RIGHT" (by decide) cfgC3 msgEddyUp
      Side.left).1 "Eddy" "RIGHT" [] (by decide)
    refine ⟨h.1, ?_⟩
    rw [h.2]
    rfl
  · have h := (dialogueC3_amended_key_side "Eddy" (by decide) cfgC3 (imsg "hi" "Eddy")
      Side.right).2.2.2.2 rfl rfl
    rw [h]
    rfl

/-! Properties of the per-list character search. -/

theorem searchIn_eq_some_name {n : String} {mo : Option String} {arr : List CharacterEntry}
    {e : CharacterEntry} (h : searchIn n mo arr = some e) : e.name = n := by
  unfold searchIn at h
  dsimp only at h
  split at h
  · rename_i e1 heq
    injection h with h'
    subst h'
    split at heq
    · rename_i m
      split at heq
      · have hp := List.find?_some heq
        simp only [Bool.and_eq_true, beq_iff_eq] at hp
        exact hp.1
      · exact Option.noConfusion heq
    · exact Option.noConfusion heq
  · split at h
    · rename_i e2 heq2
      injection h with h'
      subst h'
      have hp := List.find?_some heq2
      simp only [Bool.and_eq_true, beq_iff_eq] at hp
      exact hp.1
    · have hp := List.find?_some h
      simp only [beq_iff_eq] at hp
      exact hp

theorem searchIn_isSome_of_name (n : String) (mo : Option String) (arr : List CharacterEntry)
    (hex : ∃ e ∈ arr, e.name = n) : (searchIn n mo arr).isSome := by
  obtain ⟨w, hw, hwn⟩ := hex
  unfold searchIn
  dsimp only
  split
  · rfl
  · split
    · rfl
    · exact List.find?_isSome.mpr ⟨w, hw, by simp [hwn]⟩

theorem searchIn_exact {n m : String} {arr : List CharacterEntry} (hm : m ≠ "")
    (hex : ∃ e ∈ arr, e.name = n ∧ e.mode = some m) :
    ∃ e, searchIn n (some m) arr = some e ∧ e.name = n ∧ e.mode = some m := by
  obtain ⟨w, hw, hwn, hwm⟩ := hex
  have hfind : (arr.find? (fun c => c.name == n && c.mode == some m)).isSome :=
    List.find?_isSome.mpr ⟨w, hw, by simp [hwn, hwm]⟩
  obtain ⟨e, he⟩ := Option.isSome_iff_exists.mp hfind
  have hp := List.find?_some he
  simp only [Bool.and_eq_true, beq_iff_eq] at hp
  refine ⟨e, ?_, hp.1, hp.2⟩
  have hb : (m != "") = true := bne_iff_ne.mpr hm
  simp only [searchIn, hb, if_true]
  rw [he]

theorem searchIn_eq_none_of_no_name (n : String) (mo : Option String)
    (arr : List CharacterEntry) (hno : ∀ e ∈ arr, e.name ≠ n) :
    searchIn n mo arr = none := by
  have h3 : arr.find? (fun c => c.name == n) = none :=
    List.find?_eq_none.mpr (fun x hx => by simp [hno x hx])
  have h2 : arr.find? (fun c => c.name == n && (isFalsyMode c.mode || c.mode == some "default"))
      = none :=
    List.find?_eq_none.mpr (fun x hx => by simp [hno x hx])
  have h1 : arr.find? (fun c => (c.name == n && c.mode == some (mo.getD ""))) = none :=
    List.find?_eq_none.mpr (fun x hx => by simp [hno x hx])
  unfold searchIn
  cases mo with
  | none =>
    dsimp only
    rw [h2]
    dsimp only
    exact h3
  | some m =>
    have h1' : arr.find? (fun c => c.name == n && c.mode == some m) = none :=
      List.find?_eq_none.mpr (fun x hx => by simp [hno x hx])
    by_cases hb : (m != "") = true
    · simp only [searchIn, hb, if_true, h1', h2, h3]
    · have hb' : (m != "") = false := by
        cases h : (m != "") with
        | true => exact absurd h hb
        | false => rfl
      simp only [searchIn, hb', if_false, h2, h3]
      rfl

/-- The unmoded Eddy entry of the claim's example directory. -/
def entryEddyA : CharacterEntry := { name := "Eddy", src := "A" }

/-- The angry Eddy entry of the claim's example directory. -/
def entryEddyAngryB : CharacterEntry := { name := "Eddy", mode := some "angry", src := "B" }

/-- The example entries split across the two caller-supplied lists. -/
def cfgC4 : Config := { leftChars := [entryEddyA], rightChars := [entryEddyAngryB] }

/-- Counterexample for C4: over the left and right lists together an
exact ("Eddy","angry") match exists (entry B, on the right), yet
findCharacterEntryByName exhausts the left list first and returns the
unmoded entry A; the earlier joined-list findCharacterEntry does return
the exact match, as the claim describes. -/
theorem dialogueC4_cex :
    (findCharacterEntryByName cfgC4 "Eddy" (some "angry")).entry = some entryEddyA ∧
    entryEddyAngryB ∈ cfgC4.leftChars ++ cfgC4.rightChars ∧
    entryEddyAngryB.name = "Eddy" ∧ entryEddyAngryB.mode = some "angry" ∧
    (findCharacterEntry cfgC4.leftChars cfgC4.rightChars "Eddy" (some "angry")).1 =
      some entryEddyAngryB ∧
    (findCharacterEntryByName cfgC4 "Eddy" (some "angry")).entry ≠ some entryEddyAngryB := by
  exact ⟨rfl, by decide, rfl, rfl, rfl, by decide⟩

/-- Claim C4 (amended): resolution searches the left list in full
priority order — exact name+mode, then unmoded/default, then first name
match — and only when the left list has no entry of that name at all
does it search the right list in the same order; with no match anywhere
the result is empty. -/
theorem dialogueC4_amended_resolution (cfg : Config) (n m : String)
    (mo : Option String) (hm : m ≠ "") :
    ((∃ e ∈ cfg.leftChars, e.name = n ∧ e.mode = some m) →
      ∃ e, (findCharacterEntryByName cfg n (some m)).entry = some e ∧
        e.name = n ∧ e.mode = some m ∧
        (findCharacterEntryByName cfg n (some m)).foundOn = some Side.left) ∧
    ((∃ e ∈ cfg.leftChars, e.name = n) →
      ∃ e, (findCharacterEntryByName cfg n mo).entry = some e ∧ e.name = n ∧
        (findCharacterEntryByName cfg n mo).foundOn = some Side.left) ∧
    ((∀ e ∈ cfg.leftChars, e.name ≠ n) →
      (∃ e ∈ cfg.rightChars, e.name = n ∧ e.mode = some m) →
      ∃ e, (findCharacterEntryByName cfg n (some m)).entry = some e ∧
        e.name = n ∧ e.mode = some m ∧
        (findCharacterEntryByName cfg n (some m)).foundOn = some Side.right) ∧
    ((∀ e ∈ cfg.leftChars, e.name ≠ n) → (∀ e ∈ cfg.rightChars, e.name ≠ n) →
      (findCharacterEntryByName cfg n mo).entry = none ∧
      (findCharacterEntryByName cfg n mo).foundOn = none) := by
  refine ⟨?_, ?_, ?_, ?_⟩
  · intro hex
    obtain ⟨e, he, hen, hem⟩ := searchIn_exact hm hex
    refine ⟨e, ?_, hen, hem, ?_⟩ <;>
      · unfold findCharacterEntryByName
        rw [he]
  · intro hex
    have hs := searchIn_isSome_of_name n mo cfg.leftChars hex
    obtain ⟨e, he⟩ := Option.isSome_iff_exists.mp hs
    refine ⟨e, ?_, searchIn_eq_some_name he, ?_⟩ <;>
      · unfold findCharacterEntryByName
        rw [he]
  · intro hno hex
    have hl := searchIn_eq_none_of_no_name n (some m) cfg.leftChars hno
    obtain ⟨e, he, hen, hem⟩ := searchIn_exact hm hex
    refine ⟨e, ?_, hen, hem, ?_⟩ <;>
      · unfold findCharacterEntryByName
        rw [hl, he]
  · intro hnoL hnoR
    have hl := searchIn_eq_none_of_no_name n mo cfg.leftChars hnoL
    have hr := searchIn_eq_none_of_no_name n mo cfg.rightChars hnoR
    constructor <;>
      · unfold findCharacterEntryByName
        rw [hl, hr]

/-- The example directory with both entries in the left list, as in the
claim's concrete scenario. -/
def cfgC4w : Config := { leftChars := [entryEddyA, entryEddyAngryB] }

/-- Witness for C4 (amended): on the claim's example directory the
resolution returns B for ("Eddy","angry"), A for ("Eddy"), and nothing
for ("Unknown"). -/
theorem dialogueC4_amended_resolution_witness :
    (findCharacterEntryByName cfgC4w "Eddy" (some "angry")).entry = some entryEddyAngryB ∧
    (findCharacterEntryByName cfgC4w "Eddy" none).entry = some entryEddyA ∧
    (∃ e, (findCharacterEntryByName cfgC4w "Eddy" (some "angry")).entry = some e ∧
      e.name = "Eddy" ∧ e.mode = some "angry" ∧
      (findCharacterEntryByName cfgC4w "Eddy" (some "angry")).foundOn = some Side.left) ∧
    ((findCharacterEntryByName cfgC4w "Unknown" none).entry = none ∧
      (findCharacterEntryByName cfgC4w "Unknown" none).foundOn = none) := by
  refine ⟨rfl, rfl, ?_, ?_⟩
  · exact (dialogueC4_amended_resolution cfgC4w "Eddy" "angry" (some "angry")
      (by decide)).1 (by decide)
  · exact (dialogueC4_amended_resolution cfgC4w "Unknown" "angry" none
      (by decide)).2.2.2 (by decide) (by decide)

theorem startTyping_pinned (cfg : Config) (msgs : List InternalMessage) (idx : Nat)
    (s : EngineState) (msg : InternalMessage) (h : msgs.get? idx = some msg) :
    (startTypingMessage cfg msgs idx s).pinned =
      sideClear (computedStartingSide cfg msg) (raviTopClear msg s.pinned) := by
  obtain ⟨cb, cbf, pb, pbf, pv, ft, hc⟩ := startTyping_core cfg msgs idx s msg h
  rw [hc]

/-- The directory and script of the narrator counterexample: a left
speaker with the persistence flag followed by a narrator line. -/
def cfgC5 : Config := { leftChars := [{ name := "A", src := "a.png" }] }

def scriptC5 : List DialogueMessage :=
  [{ text := "x", charecter := "A", showTimes := true }, { text := "y", charecter := "ravi" }]

/-- The prepared form of the two scriptC5 messages. -/
def imsgA : InternalMessage :=
  { text := "x", charecter := "A", showTimes := true, resolvedTypeSpeed := 35,
    resolvedTextColor := "#000000", resolvedBgColor := "#ffffff" }

def imsgRavi : InternalMessage := imsg "y" "ravi"

/-- Counterexample for C5: advancing past the pinned-eligible left
message into the narrator line clears the left pin, although the
narrator message occupies the top slot, not the left slot — the pin does
not stay until the next message resolving to the same slot. -/
theorem dialogueC5_cex :
    (run cfgC5 [Cmd.play scriptC5, Cmd.click false, Cmd.click false]
        (initialEngineState cfgC5)).pinned.left = none ∧
    (run cfgC5 [Cmd.play scriptC5, Cmd.click false, Cmd.click false]
        (initialEngineState cfgC5)).currentMessage = some imsgRavi ∧
    isRaviName (parseCharacterKey imsgRavi.charecter).name = true ∧
    imsgA.showTimes = true ∧
    computedStartingSide cfgC5 imsgA = Side.left ∧
    (run cfgC5 [Cmd.play scriptC5, Cmd.click false]
        (initialEngineState cfgC5)).currentMessage = some imsgA ∧
    (run cfgC5 [Cmd.play scriptC5, Cmd.click false, Cmd.click false]
        (initialEngineState cfgC5)).pinned.left ≠ some imsgA := by
  exact ⟨rfl, rfl, rfl, rfl, rfl, rfl, by decide⟩

/-- Claim C5 (amended): on an advance, the message being left is copied
into its slot when its persistence flag is set (top for the narrator,
else the slot of its computed starting side), and then the slot of the
NEXT message's computed starting side is cleared — where a narrator
message both clears the top slot and, via its own starting-side
computation (defaulting to left when it is not in the directory), clears
that side slot as well; each slot holds at most one pin by construction. -/
theorem dialogueC5_amended_pins (cfg : Config) (s : EngineState)
    (msgs : List InternalMessage) (m mNext : InternalMessage)
    (hact : s.isActive = true) (hmsgs : s.activeMessages = some msgs)
    (hcur : s.currentMessage = some m) (hty : s.typing = false)
    (hnext : msgs.get? (s.index + 1) = some mNext) :
    ((onClick cfg false s).pinned.top =
      if isRaviName (parseCharacterKey mNext.charecter).name = true then none
      else if m.showTimes = true ∧ isRaviName (parseCharacterKey m.charecter).name = true then
        some m
      else s.pinned.top) ∧
    ((onClick cfg false s).pinned.left =
      if computedStartingSide cfg mNext = Side.left then none
      else if m.showTimes = true ∧ isRaviName (parseCharacterKey m.charecter).name = false
          ∧ computedStartingSide cfg m = Side.left then some m
      else s.pinned.left) ∧
    ((onClick cfg false s).pinned.right =
      if computedStartingSide cfg mNext = Side.right then none
      else if m.showTimes = true ∧ isRaviName (parseCharacterKey m.charecter).name = false
          ∧ computedStartingSide cfg m = Side.right then some m
      else s.pinned.right) := by
  obtain ⟨hbound, -⟩ := List.get?_eq_some.mp hnext
  have h2 : onClick cfg false s = advanceOrFinish cfg msgs s := by
    unfold onClick
    rw [hact, hmsgs]
    simp [hty]
  have hp : (onClick cfg false s).pinned =
      sideClear (computedStartingSide cfg mNext)
        (raviTopClear mNext (pinIfNeeded cfg (some m) s).pinned) := by
    rw [h2]
    unfold advanceOrFinish
    dsimp only
    rw [if_pos hbound]
    rw [startTyping_pinned cfg msgs (s.index + 1) _ mNext hnext]
    rw [hcur]
  refine ⟨?_, ?_, ?_⟩ <;>
    · rw [hp]
      unfold pinIfNeeded
      dsimp only
      cases hst : m.showTimes <;>
        cases hrv : isRaviName (parseCharacterKey m.charecter).name <;>
          cases hrvN : isRaviName (parseCharacterKey mNext.charecter).name <;>
            cases hcs : computedStartingSide cfg m <;>
              cases hcsN : computedStartingSide cfg mNext <;>
                simp [sideClear, raviTopClear, hrvN]

/-- A paused state whose current message pins left while the next
message forces right. -/
def imsgBRight : InternalMessage := imsg "z" "B:right"

def stateC5W : EngineState :=
  { activeMessages := some [imsgA, imsgBRight], index := 0, display := "x", typing := false,
    isActive := true, currentMessage := some imsgA, nextPromiseId := 1,
    pendingResolve := some 0 }

/-- Witness for C5 (amended): advancing from the persistent left message
into a right-forced message pins the left slot and leaves the other
slots empty. -/
theorem dialogueC5_amended_pins_witness :
    (onClick cfgC5 false stateC5W).pinned.left = some imsgA ∧
    (onClick cfgC5 false stateC5W).pinned.right = none ∧
    (onClick cfgC5 false stateC5W).pinned.top = none := by
  have h := dialogueC5_amended_pins cfgC5 stateC5W [imsgA, imsgBRight] imsgA imsgBRight
    rfl rfl rfl rfl rfl
  refine ⟨?_, ?_, ?_⟩
  · rw [h.2.1]; decide
  · rw [h.2.2]; decide
  · rw [h.1]; decide

/-- Counterexample for C6: after a.png (first message), then an explicit
null background (second message), a third message with b.png arrives
while the null is current: the claim says the old current background
(null) becomes the previous layer, but the code only moves a truthy
current into the previous layer, so the stale "a.png" stays there. -/
theorem dialogueC6_cex :
    (updateBackgroundForMessage cfgDefault (some none) none
        (updateBackgroundForMessage cfgDefault (some (some "a.png")) none
          (initialEngineState cfgDefault))).currentBg = none ∧
    (updateBackgroundForMessage cfgDefault (some none) none
        (updateBackgroundForMessage cfgDefault (some (some "a.png")) none
          (initialEngineState cfgDefault))).prevBg = some "a.png" ∧
    (updateBackgroundForMessage cfgDefault (some (some "b.png")) none
        (updateBackgroundForMessage cfgDefault (some none) none
          (updateBackgroundForMessage cfgDefault (some (some "a.png")) none
            (initialEngineState cfgDefault)))).prevBg = some "a.png" ∧
    (updateBackgroundForMessage cfgDefault (some (some "b.png")) none
        (updateBackgroundForMessage cfgDefault (some none) none
          (updateBackgroundForMessage cfgDefault (some (some "a.png")) none
            (initialEngineState cfgDefault)))).currentBg = some "b.png" ∧
    (updateBackgroundForMessage cfgDefault (some (some "b.png")) none
        (updateBackgroundForMessage cfgDefault (some none) none
          (updateBackgroundForMessage cfgDefault (some (some "a.png")) none
            (initialEngineState cfgDefault)))).prevBg ≠
      (updateBackgroundForMessage cfgDefault (some none) none
        (updateBackgroundForMessage cfgDefault (some (some "a.png")) none
          (initialEngineState cfgDefault))).currentBg := by
  exact ⟨rfl, rfl, rfl, rfl, by decide⟩

/-- Claim C6 (amended): an absent background field changes nothing; a
present one equal to the current background (URL and stringified filter)
changes nothing; a differing one installs the new background with the
message filter (else the provider filter), moves the old current into
the previous fading layer and arms the fade timeout ONLY when the old
current is truthy (non-null, non-empty) — otherwise the previous layer
is left untouched; the fade timeout clears the previous layer. -/
theorem dialogueC6_amended_background (cfg : Config) (s : EngineState)
    (nb : Option String) (filt : Option BackgroundFilter) :
    (updateBackgroundForMessage cfg none filt s = s) ∧
    (s.currentBg = nb ∧
        canonFilter s.currentBgFilter = canonFilter (some (filt.getD cfg.providerBgFilter)) →
      updateBackgroundForMessage cfg (some nb) filt s = s) ∧
    (¬(s.currentBg = nb ∧
        canonFilter s.currentBgFilter = canonFilter (some (filt.getD cfg.providerBgFilter))) →
      (updateBackgroundForMessage cfg (some nb) filt s).currentBg = nb ∧
      (updateBackgroundForMessage cfg (some nb) filt s).currentBgFilter =
        some (filt.getD cfg.providerBgFilter) ∧
      (isTruthyOptStr s.currentBg = true →
        (updateBackgroundForMessage cfg (some nb) filt s).prevBg = s.currentBg ∧
        (updateBackgroundForMessage cfg (some nb) filt s).prevBgFilter = s.currentBgFilter ∧
        (updateBackgroundForMessage cfg (some nb) filt s).bgFadeTimerActive = true) ∧
      (isTruthyOptStr s.currentBg = false →
        (updateBackgroundForMessage cfg (some nb) filt s).prevBg = s.prevBg ∧
        (updateBackgroundForMessage cfg (some nb) filt s).prevBgFilter = s.prevBgFilter ∧
        (updateBackgroundForMessage cfg (some nb) filt s).bgFadeTimerActive =
          s.bgFadeTimerActive)) ∧
    (s.bgFadeTimerActive = true →
      (bgElapseStep s).prevBg = none ∧ (bgElapseStep s).prevBgFilter = none ∧
      (bgElapseStep s).bgFadeTimerActive = false) := by
  refine ⟨rfl, ?_, ?_, ?_⟩
  · intro hsame
    unfold updateBackgroundForMessage
    dsimp only
    rw [if_pos (by simp [hsame.1, hsame.2])]
  · intro hne
    cases hcb : ((s.currentBg == nb) &&
        (canonFilter s.currentBgFilter ==
          canonFilter (some (filt.getD cfg.providerBgFilter)))) with
    | true =>
      exfalso
      apply hne
      simpa [Bool.and_eq_true, beq_iff_eq] using hcb
    | false =>
      have key : updateBackgroundForMessage cfg (some nb) filt s =
          { (if isTruthyOptStr s.currentBg then
              { s with prevBg := s.currentBg, prevBgFilter := s.currentBgFilter,
                       prevVisible := true, bgFadeTimerActive := true }
            else s) with
            currentBgFilter := some (filt.getD cfg.providerBgFilter), currentBg := nb } := by
        unfold updateBackgroundForMessage
        dsimp only
        rw [hcb]
        rfl
      rw [key]
      dsimp only
      cases htr : isTruthyOptStr s.currentBg with
      | true =>
        exact ⟨rfl, rfl, fun _ => ⟨rfl, rfl, rfl⟩, fun hcontra => absurd hcontra (by decide)⟩
      | false =>
        exact ⟨rfl, rfl, fun hcontra => absurd hcontra (by decide), fun _ => ⟨rfl, rfl, rfl⟩⟩
  · intro htimer
    unfold bgElapseStep
    rw [if_pos htimer]
    exact ⟨rfl, rfl, rfl⟩

/-- A state showing the provider with background a.png installed. -/
def stateBgA : EngineState :=
  { isActive := true, currentBg := some "a.png", currentBgFilter := some DEFAULT_BG_FILTER }

/-- Witness for C6 (amended): a.png followed by b.png yields
previous = a.png fading out with the timer armed and current = b.png,
and the fade timeout then clears the previous layer. -/
theorem dialogueC6_amended_background_witness :
    (updateBackgroundForMessage cfgDefault (some (some "b.png")) none stateBgA).currentBg
        = some "b.png" ∧
    (updateBackgroundForMessage cfgDefault (some (some "b.png")) none stateBgA).prevBg
        = some "a.png" ∧
    (updateBackgroundForMessage cfgDefault (some (some "b.png")) none
        stateBgA).bgFadeTimerActive = true ∧
    (bgElapseStep (updateBackgroundForMessage cfgDefault (some (some "b.png")) none
        stateBgA)).prevBg = none := by
  have h := (dialogueC6_amended_background cfgDefault stateBgA (some "b.png") none).2.2.1
    (by decide)
  have htr := h.2.2.1 (by decide)
  have h4 := (dialogueC6_amended_background cfgDefault
      (updateBackgroundForMessage cfgDefault (some (some "b.png")) none stateBgA)
      (some "b.png") none).2.2.2 htr.2.2
  exact ⟨h.1, htr.1.trans rfl, htr.2.2, h4.1⟩

theorem mem_dedupFirst_aux (l acc : List String) (x : String) :
    x ∈ l.foldl (fun acc f => if acc.contains f then acc else acc ++ [f]) acc ↔
      x ∈ acc ∨ x ∈ l := by
  induction l generalizing acc with
  | nil => simp
  | cons f t ih =>
    simp only [List.foldl_cons]
    rw [ih]
    by_cases h : acc.contains f = true
    · rw [if_pos h]
      have hf : f ∈ acc := List.elem_iff.mp h
      simp only [List.mem_cons]
      constructor
      · rintro (hx | hx)
        · exact Or.inl hx
        · exact Or.inr (Or.inr hx)
      · rintro (hx | hx | hx)
        · exact Or.inl hx
        · exact Or.inl (hx ▸ hf)
        · exact Or.inr hx
    · rw [if_neg h]
      simp only [List.mem_append, List.mem_cons, List.mem_singleton]
      tauto

theorem mem_dedupFirst (l : List String) (x : String) : x ∈ dedupFirst l ↔ x ∈ l := by
  unfold dedupFirst
  rw [mem_dedupFirst_aux]
  simp

theorem modeFromFilename_of_isDefault (f : String) (h : isDefaultFile f = true) :
    modeFromFilename f = none := by
  unfold isDefaultFile at h
  split at h
  · exact Bool.noConfusion h
  · unfold modeFromFilename
    dsimp only
    rw [if_pos (by simpa [beq_iff_eq] using h)]

theorem entriesForCharacter_has_unmoded (basePath charName first : String)
    (rest : List String) :
    ∃ e ∈ entriesForCharacter basePath charName (first :: rest),
      e.mode = none ∧ e.name = charName := by
  unfold entriesForCharacter
  dsimp only
  have hmem : first ∈ dedupFirst (first :: rest) :=
    (mem_dedupFirst _ _).mpr (List.mem_cons_self _ _)
  cases hu : dedupFirst (first :: rest) with
  | nil =>
    rw [hu] at hmem
    cases hmem
  | cons u us =>
    dsimp only
    by_cases hd : (u :: us).any isDefaultFile = true
    · rw [if_pos hd]
      obtain ⟨f, hf, hdf⟩ := List.any_eq_true.mp hd
      exact ⟨_, List.mem_map_of_mem _ hf, modeFromFilename_of_isDefault f hdf, rfl⟩
    · rw [if_neg hd]
      exact ⟨_, List.mem_append_right _ (List.mem_singleton.mpr rfl), rfl, rfl⟩

/-- Claim C9: the manifest loading step is total over every fetch/parse
outcome: on failure it warns and leaves the runtime lists null so the
effective directory equals the caller-supplied lists, and on success it
expands the manifest into both (identical) entry lists — where every
non-empty character yields an unmoded entry (either a default-stem file,
whose stem maps to no mode, or the synthesized fallback from the first
file), and duplicated file names are collapsed. -/
theorem dialogueC9_manifest_loader (charectersPath : String) (attempts : List FetchAttempt)
    (propLeft propRight : List CharacterEntry) :
    (firstManifest attempts = none →
      (tryLoadModel charectersPath attempts).runtimeLeftCharacters = none ∧
      (tryLoadModel charectersPath attempts).runtimeRightCharacters = none ∧
      (tryLoadModel charectersPath attempts).warned = true ∧
      effectiveChars (tryLoadModel charectersPath attempts).runtimeLeftCharacters propLeft
        = propLeft ∧
      effectiveChars (tryLoadModel charectersPath attempts).runtimeRightCharacters propRight
        = propRight) ∧
    (∀ m, firstManifest attempts = some m →
      (tryLoadModel charectersPath attempts).runtimeLeftCharacters =
        some (expandManifest (stripTrailingSlash charectersPath) m) ∧
      (tryLoadModel charectersPath attempts).runtimeRightCharacters =
        some (expandManifest (stripTrailingSlash charectersPath) m) ∧
      (tryLoadModel charectersPath attempts).warned = false) ∧
    (∀ basePath charName first rest,
      ∃ e ∈ entriesForCharacter basePath charName (first :: rest),
        e.mode = none ∧ e.name = charName) ∧
    (∀ f, isDefaultFile f = true → modeFromFilename f = none) ∧
    (∀ l a, a ∈ dedupFirst l ↔ a ∈ l) := by
  refine ⟨?_, ?_, ?_, ?_, ?_⟩
  · intro h
    unfold tryLoadModel
    rw [h]
    exact ⟨rfl, rfl, rfl, rfl, rfl⟩
  · intro m h
    unfold tryLoadModel
    rw [h]
    exact ⟨rfl, rfl, rfl⟩
  · intro basePath charName first rest
    exact entriesForCharacter_has_unmoded basePath charName first rest
  · intro f hf
    exact modeFromFilename_of_isDefault f hf
  · intro l a
    exact mem_dedupFirst l a

/-- Witness for C9: a failed pair of fetches falls back to the caller
list with a warning; a successful second fetch expands the manifest,
deduplicating "a.png" and synthesizing the unmoded fallback because no
default-stem file exists. -/
theorem dialogueC9_manifest_loader_witness :
    (tryLoadModel "/chars/" [FetchAttempt.throws, FetchAttempt.notOk]).runtimeLeftCharacters
      = none ∧
    effectiveChars
      (tryLoadModel "/chars/" [FetchAttempt.throws, FetchAttempt.notOk]).runtimeLeftCharacters
      [entryEddyA] = [entryEddyA] ∧
    (tryLoadModel "/chars/" [FetchAttempt.throws, FetchAttempt.notOk]).warned = true ∧
    (tryLoadModel "/chars" [FetchAttempt.notOk,
        FetchAttempt.okJson (some [("Eddy", ["a.png", "a.png", "b.png"])])]).runtimeLeftCharacters
      = some (expandManifest "/chars" { characters := [("Eddy", ["a.png", "a.png", "b.png"])] }) ∧
    expandManifest "/chars" { characters := [("Eddy", ["a.png", "a.png", "b.png"])] } =
      [{ name := "Eddy", mode := some "a", src := "/chars/Eddy/a.png" },
       { name := "Eddy", mode := some "b", src := "/chars/Eddy/b.png" },
       { name := "Eddy", mode := none, src := "/chars/Eddy/a.png" }] := by
  have h1 := (dialogueC9_manifest_loader "/chars/" [FetchAttempt.throws, FetchAttempt.notOk]
    [entryEddyA] []).1 rfl
  have h2 := (dialogueC9_manifest_loader "/chars" [FetchAttempt.notOk,
    FetchAttempt.okJson (some [("Eddy", ["a.png", "a.png", "b.png"])])] [] []).2.1
    { characters := [("Eddy", ["a.png", "a.png", "b.png"])] } rfl
  exact ⟨h1.1, h1.2.2.2.1, h1.2.2.1, h2.1, by decide⟩
